import Mathlib

/-!
Shallow embedding of `src/subcode/mod.rs` from the `ccd` crate: parsing and
classification of CD subchannel data.  Bytes are modelled as `Nat`, `Vec<u8>`
as `List Nat`, and Rust's `Result<T, InvalidDataError>` as
`Except InvalidDataError T`.  Rust's `slice::chunks(n)` is modelled by
`chunks` below.
-/

namespace Ccd

/-- The three error variants of `InvalidDataError` in the source, each
carrying its numeric payload. -/
inductive InvalidDataError
  | InvalidSubcodeDataLength (length : Nat)
  | InvalidSubcodeIndex (index : Nat)
  | InvalidSectorLength (length : Nat)
deriving DecidableEq

/-- The `SubcodeType` enumeration: the 8 subchannel labels P through W. -/
inductive SubcodeType
  | P | Q | R | S | T | U | V | W
deriving DecidableEq, Inhabited

/-- `SubcodeType::from_index`: positions 0–7 map to P..W, anything else to
`None`. -/
def SubcodeType.from_index (index : Nat) : Option SubcodeType :=
  match index with
  | 0 => some SubcodeType.P
  | 1 => some SubcodeType.Q
  | 2 => some SubcodeType.R
  | 3 => some SubcodeType.S
  | 4 => some SubcodeType.T
  | 5 => some SubcodeType.U
  | 6 => some SubcodeType.V
  | 7 => some SubcodeType.W
  | _ => none

/-- `Subcode`: a channel label plus its bytes (12 of them for parsed data). -/
structure Subcode where
  channel : SubcodeType
  data : List Nat
deriving DecidableEq

/-- `Subcode::is_empty`: true iff every byte is 0. -/
def Subcode.is_empty (s : Subcode) : Bool :=
  s.data.all (fun byte => byte == 0)

/-- `Sector`: the `codes` vector of `Subcode`s. -/
structure Sector where
  codes : List Subcode
deriving DecidableEq

/-- `SubcodeData`: the `sectors` vector. -/
structure SubcodeData where
  sectors : List Sector
deriving DecidableEq

/-- Model of Rust's `slice::chunks(n)`: splits a list into consecutive
`n`-sized pieces (a shorter final piece if the length is not a multiple).
Rust panics on `n = 0`; the code only ever calls it with 96 and 12, and the
model returns `[]` there. -/
def chunks (n : Nat) (l : List Nat) : List (List Nat) :=
  if h : l.length = 0 ∨ n = 0 then []
  else l.take n :: chunks n (l.drop n)
termination_by l.length
decreasing_by
  push_neg at h
  simp only [List.length_drop]
  omega

/-- The loop body of `Sector::parse`: walk the 12-byte chunks with their
positions `i, i+1, ...`, mapping each position through
`SubcodeType::from_index`; an unmapped position aborts with
`InvalidSubcodeIndex`. -/
def Sector.parseCodes : Nat → List (List Nat) → Except InvalidDataError (List Subcode)
  | _, [] => Except.ok []
  | i, d :: rest =>
    match SubcodeType.from_index i with
    | none => Except.error (InvalidDataError.InvalidSubcodeIndex i)
    | some c =>
      match Sector.parseCodes (i + 1) rest with
      | Except.error e => Except.error e
      | Except.ok codes => Except.ok ({ channel := c, data := d } :: codes)

/-- `Sector::parse`: rejects inputs whose length is not exactly 96 with
`InvalidSectorLength`, otherwise builds one `Subcode` per 12-byte chunk. -/
def Sector.parse (data : List Nat) : Except InvalidDataError Sector :=
  if data.length ≠ 96 then
    Except.error (InvalidDataError.InvalidSectorLength data.length)
  else
    match Sector.parseCodes 0 (chunks 12 data) with
    | Except.error e => Except.error e
    | Except.ok codes => Except.ok { codes := codes }

/-- The loop body of `SubcodeData::parse`: parse each 96-byte chunk as a
`Sector`, propagating the first failure. -/
def SubcodeData.parseSectors : List (List Nat) → Except InvalidDataError (List Sector)
  | [] => Except.ok []
  | c :: rest =>
    match Sector.parse c with
    | Except.error e => Except.error e
    | Except.ok s =>
      match SubcodeData.parseSectors rest with
      | Except.error e => Except.error e
      | Except.ok ss => Except.ok (s :: ss)

/-- `SubcodeData::parse`: rejects inputs whose length is not a multiple of 96
with `InvalidSubcodeDataLength`, otherwise parses each 96-byte chunk as a
`Sector`. -/
def SubcodeData.parse (data : List Nat) : Except InvalidDataError SubcodeData :=
  if data.length % 96 ≠ 0 then
    Except.error (InvalidDataError.InvalidSubcodeDataLength data.length)
  else
    match SubcodeData.parseSectors (chunks 96 data) with
    | Except.error e => Except.error e
    | Except.ok sectors => Except.ok { sectors := sectors }

/-- `Sector::contains_basic_data_only`: keep the codes whose channel is not
P and not Q, and test that all of them are empty. -/
def Sector.contains_basic_data_only (s : Sector) : Bool :=
  (s.codes.filter (fun code =>
    match code.channel with
    | SubcodeType.P | SubcodeType.Q => false
    | _ => true)).all (fun code => code.is_empty)

/-- `Sector::contains_data_in_channels`: enumerate the codes with their
positions and collect `from_index(position)` for every non-empty code.  The
source unwraps the option (a panic on `None`); `Option.get!` models that
unwrap. -/
def Sector.contains_data_in_channels (s : Sector) : List SubcodeType :=
  (List.enum s.codes).filterMap (fun p =>
    if p.2.is_empty then none
    else some (SubcodeType.from_index p.1).get!)

/-- `SubcodeData::contains_basic_data_only`: conjunction over all sectors. -/
def SubcodeData.contains_basic_data_only (d : SubcodeData) : Bool :=
  d.sectors.all (fun sector => sector.contains_basic_data_only)

/-- `SubcodeType::to_string`: single-letter channel name. -/
def SubcodeType.to_string (t : SubcodeType) : String :=
  match t with
  | SubcodeType.P => "P"
  | SubcodeType.Q => "Q"
  | SubcodeType.R => "R"
  | SubcodeType.S => "S"
  | SubcodeType.T => "T"
  | SubcodeType.U => "U"
  | SubcodeType.V => "V"
  | SubcodeType.W => "W"

/-! ### Lemmas about the `chunks` model -/

lemma chunks_nil (n : Nat) : chunks n [] = [] := by
  rw [chunks]
  simp

lemma chunks_cons (n : Nat) (hn : 0 < n) (l : List Nat) (hl : l ≠ []) :
    chunks n l = l.take n :: chunks n (l.drop n) := by
  rw [chunks, dif_neg]
  push_neg
  exact ⟨fun e => hl (List.length_eq_zero.mp e), hn.ne'⟩

lemma chunks_flatten_fuel (n : Nat) (hn : 0 < n) :
    ∀ (fuel : Nat) (l : List Nat), l.length ≤ fuel → (chunks n l).flatten = l := by
  intro fuel
  induction fuel with
  | zero =>
    intro l hl
    have h0 : l = [] := List.length_eq_zero.mp (Nat.le_zero.mp hl)
    subst h0
    simp [chunks_nil]
  | succ f ih =>
    intro l hl
    by_cases hl0 : l = []
    · subst hl0
      simp [chunks_nil]
    · have hpos : 0 < l.length := List.length_pos.mpr hl0
      have hdrop : (l.drop n).length ≤ f := by
        simp only [List.length_drop]
        omega
      rw [chunks_cons n hn l hl0, List.flatten_cons, ih (l.drop n) hdrop,
        List.take_append_drop]

/-- Flattening the chunks of a list gives the list back. -/
lemma chunks_flatten (n : Nat) (hn : 0 < n) (l : List Nat) :
    (chunks n l).flatten = l :=
  chunks_flatten_fuel n hn l.length l le_rfl

/-- For a list of length `n * m`, `chunks n` yields exactly `m` pieces; the
`k`-th piece is the slice `l[n*k .. n*k+n)` and every piece has length `n`. -/
lemma chunks_spec (n : Nat) (hn : 0 < n) :
    ∀ (m : Nat) (l : List Nat), l.length = n * m →
      (chunks n l).length = m ∧
      (∀ k, k < m → (chunks n l)[k]? = some ((l.drop (n * k)).take n)) ∧
      (∀ c ∈ chunks n l, c.length = n) := by
  intro m
  induction m with
  | zero =>
    intro l hl
    have h0 : l = [] := List.length_eq_zero.mp (by simpa using hl)
    subst h0
    refine ⟨by simp [chunks_nil], fun k hk => absurd hk (by omega), ?_⟩
    intro c hc
    simp [chunks_nil] at hc
  | succ m ih =>
    intro l hl
    rw [Nat.mul_succ] at hl
    have hl0 : l ≠ [] := by
      intro e
      subst e
      simp at hl
      omega
    have hdl : (l.drop n).length = n * m := by
      simp only [List.length_drop]
      omega
    obtain ⟨ihlen, ihget, ihmem⟩ := ih (l.drop n) hdl
    rw [chunks_cons n hn l hl0]
    refine ⟨by simp [ihlen], ?_, ?_⟩
    · intro k hk
      cases k with
      | zero =>
        simp
      | succ k =>
        have hk' : k < m := by omega
        have hmul : n * (k + 1) = n * k + n := Nat.mul_succ n k
        simp only [List.getElem?_cons_succ]
        rw [ihget k hk', List.drop_drop, hmul, Nat.add_comm (n * k) n]
    · intro c hc
      rcases List.mem_cons.mp hc with h | h
      · subst h
        simp only [List.length_take]
        omega
      · exact ihmem c h

/-! ### What `Sector::parse` and `SubcodeData::parse` build on well-sized input -/

/-- The sector value that `Sector::parse` constructs from a 96-byte list:
8 subcodes in channel order P..W, the `i`-th holding bytes `12*i .. 12*i+12`. -/
def sectorOf (data : List Nat) : Sector :=
  { codes := [
      { channel := SubcodeType.P, data := (data.drop 0).take 12 },
      { channel := SubcodeType.Q, data := (data.drop 12).take 12 },
      { channel := SubcodeType.R, data := (data.drop 24).take 12 },
      { channel := SubcodeType.S, data := (data.drop 36).take 12 },
      { channel := SubcodeType.T, data := (data.drop 48).take 12 },
      { channel := SubcodeType.U, data := (data.drop 60).take 12 },
      { channel := SubcodeType.V, data := (data.drop 72).take 12 },
      { channel := SubcodeType.W, data := (data.drop 84).take 12 }] }

lemma chunks_twelve (data : List Nat) (h : data.length = 96) :
    chunks 12 data = [(data.drop 0).take 12, (data.drop 12).take 12,
      (data.drop 24).take 12, (data.drop 36).take 12, (data.drop 48).take 12,
      (data.drop 60).take 12, (data.drop 72).take 12, (data.drop 84).take 12] := by
  obtain ⟨hlen, hget, -⟩ := chunks_spec 12 (by norm_num) 8 data (by omega)
  apply List.ext_getElem?
  intro k
  match k with
  | 0 => rw [hget 0 (by norm_num)]; norm_num
  | 1 => rw [hget 1 (by norm_num)]; norm_num
  | 2 => rw [hget 2 (by norm_num)]; norm_num
  | 3 => rw [hget 3 (by norm_num)]; norm_num
  | 4 => rw [hget 4 (by norm_num)]; norm_num
  | 5 => rw [hget 5 (by norm_num)]; norm_num
  | 6 => rw [hget 6 (by norm_num)]; norm_num
  | 7 => rw [hget 7 (by norm_num)]; norm_num
  | (k + 8) =>
    rw [List.getElem?_eq_none (by omega)]
    symm
    apply List.getElem?_eq_none
    simp

lemma sector_parse_of_96 (data : List Nat) (h : data.length = 96) :
    Sector.parse data = Except.ok (sectorOf data) := by
  have h96 : ¬(data.length ≠ 96) := by omega
  unfold Sector.parse
  rw [if_neg h96, chunks_twelve data h]
  rfl

lemma parseSectors_ok : ∀ (cs : List (List Nat)), (∀ c ∈ cs, c.length = 96) →
    SubcodeData.parseSectors cs = Except.ok (cs.map sectorOf) := by
  intro cs
  induction cs with
  | nil => intro _; rfl
  | cons c rest ih =>
    intro hc
    have h1 : c.length = 96 := hc c (List.mem_cons_self c rest)
    have h2 := ih (fun x hx => hc x (List.mem_cons_of_mem c hx))
    simp only [SubcodeData.parseSectors, sector_parse_of_96 c h1, h2, List.map_cons]

lemma subcodeData_parse_of_mul (data : List Nat) (m : Nat) (h : data.length = 96 * m) :
    SubcodeData.parse data = Except.ok { sectors := (chunks 96 data).map sectorOf } := by
  obtain ⟨hlen, hget, hmem⟩ := chunks_spec 96 (by norm_num) m data h
  have hmod : ¬(data.length % 96 ≠ 0) := by omega
  unfold SubcodeData.parse
  rw [if_neg hmod, parseSectors_ok (chunks 96 data) hmem]

lemma sector_parse_len_err (data : List Nat) (h : data.length ≠ 96) :
    Sector.parse data
      = Except.error (InvalidDataError.InvalidSectorLength data.length) := by
  unfold Sector.parse
  rw [if_pos h]

lemma subcodeData_parse_len_err (data : List Nat) (h : data.length % 96 ≠ 0) :
    SubcodeData.parse data
      = Except.error (InvalidDataError.InvalidSubcodeDataLength data.length) := by
  unfold SubcodeData.parse
  rw [if_pos h]

lemma length_eq_mul_of_mod (data : List Nat) (h : data.length % 96 = 0) :
    data.length = 96 * (data.length / 96) :=
  (Nat.mul_div_cancel' (Nat.dvd_of_mod_eq_zero h)).symm

/-! ### Claim theorems -/

/-- C1: every 96-byte input parses successfully into a sector of exactly 8
subcodes in channel order P,Q,R,S,T,U,V,W, where the subcode at position `i`
holds bytes `12*i .. 12*i+12` of the input unmodified; moreover index `i`
carries exactly the channel `SubcodeType.from_index i`. -/
theorem sector_parse_success (data : List Nat) (h : data.length = 96) :
    Sector.parse data = Except.ok { codes := [
      { channel := SubcodeType.P, data := (data.drop 0).take 12 },
      { channel := SubcodeType.Q, data := (data.drop 12).take 12 },
      { channel := SubcodeType.R, data := (data.drop 24).take 12 },
      { channel := SubcodeType.S, data := (data.drop 36).take 12 },
      { channel := SubcodeType.T, data := (data.drop 48).take 12 },
      { channel := SubcodeType.U, data := (data.drop 60).take 12 },
      { channel := SubcodeType.V, data := (data.drop 72).take 12 },
      { channel := SubcodeType.W, data := (data.drop 84).take 12 }] } ∧
    (List.range 8).map SubcodeType.from_index
      = [SubcodeType.P, SubcodeType.Q, SubcodeType.R, SubcodeType.S, SubcodeType.T,
         SubcodeType.U, SubcodeType.V, SubcodeType.W].map some :=
  ⟨sector_parse_of_96 data h, by decide⟩

/-- Witness for C1 at the concrete input of 96 zero bytes. -/
theorem sector_parse_success_witness :
    Sector.parse (List.replicate 96 0) = Except.ok { codes := [
      { channel := SubcodeType.P, data := ((List.replicate 96 0).drop 0).take 12 },
      { channel := SubcodeType.Q, data := ((List.replicate 96 0).drop 12).take 12 },
      { channel := SubcodeType.R, data := ((List.replicate 96 0).drop 24).take 12 },
      { channel := SubcodeType.S, data := ((List.replicate 96 0).drop 36).take 12 },
      { channel := SubcodeType.T, data := ((List.replicate 96 0).drop 48).take 12 },
      { channel := SubcodeType.U, data := ((List.replicate 96 0).drop 60).take 12 },
      { channel := SubcodeType.V, data := ((List.replicate 96 0).drop 72).take 12 },
      { channel := SubcodeType.W, data := ((List.replicate 96 0).drop 84).take 12 }] } :=
  (sector_parse_success (List.replicate 96 0) (by decide)).1

/-- C4: every input whose length is not exactly 96 makes `Sector::parse`
fail with `InvalidSectorLength` carrying the actual input length. -/
theorem sector_parse_wrong_length (data : List Nat) (h : data.length ≠ 96) :
    Sector.parse data
      = Except.error (InvalidDataError.InvalidSectorLength data.length) :=
  sector_parse_len_err data h

/-- Witness for C4 at the concrete empty input (length 0). -/
theorem sector_parse_wrong_length_witness :
    Sector.parse [] = Except.error (InvalidDataError.InvalidSectorLength 0) :=
  sector_parse_wrong_length [] (by decide)

/-- C2: every input whose length is a multiple of 96 parses successfully into
exactly `length / 96` sectors, the `k`-th being `Sector::parse` of the `k`-th
consecutive 96-byte chunk, in input order. -/
theorem subcodeData_parse_success (data : List Nat) (h : data.length % 96 = 0) :
    ∃ d, SubcodeData.parse data = Except.ok d ∧
      d.sectors.length = data.length / 96 ∧
      ∀ k, k < data.length / 96 →
        ∃ s, Sector.parse ((data.drop (96 * k)).take 96) = Except.ok s ∧
          d.sectors[k]? = some s := by
  have hm := length_eq_mul_of_mod data h
  obtain ⟨hlen, hget, hmem⟩ := chunks_spec 96 (by norm_num) (data.length / 96) data hm
  refine ⟨_, subcodeData_parse_of_mul data _ hm, ?_, ?_⟩
  · simpa using hlen
  · intro k hk
    refine ⟨sectorOf ((data.drop (96 * k)).take 96), ?_, ?_⟩
    · exact sector_parse_of_96 _ (hmem _ (List.getElem?_mem (hget k hk)))
    · show ((chunks 96 data).map sectorOf)[k]? = _
      rw [List.getElem?_map, hget k hk]
      rfl

/-- Witness for C2 at the concrete input of 96 zero bytes. -/
theorem subcodeData_parse_success_witness :
    ∃ d, SubcodeData.parse (List.replicate 96 0) = Except.ok d ∧
      d.sectors.length = (List.replicate 96 (0 : Nat)).length / 96 ∧
      ∀ k, k < (List.replicate 96 (0 : Nat)).length / 96 →
        ∃ s, Sector.parse (((List.replicate 96 0).drop (96 * k)).take 96)
            = Except.ok s ∧
          d.sectors[k]? = some s :=
  subcodeData_parse_success (List.replicate 96 0) (by decide)

/-- C3: `SubcodeData::parse` returns `InvalidSubcodeDataLength l` exactly for
the inputs whose length is not a multiple of 96, and then `l` is the actual
input length. -/
theorem subcodeData_parse_length_error (data : List Nat) (l : Nat) :
    SubcodeData.parse data
        = Except.error (InvalidDataError.InvalidSubcodeDataLength l) ↔
      data.length % 96 ≠ 0 ∧ l = data.length := by
  constructor
  · intro he
    by_cases h : data.length % 96 = 0
    · rw [subcodeData_parse_of_mul data _ (length_eq_mul_of_mod data h)] at he
      exact absurd he (by simp)
    · refine ⟨h, ?_⟩
      rw [subcodeData_parse_len_err data h] at he
      simp only [Except.error.injEq, InvalidDataError.InvalidSubcodeDataLength.injEq] at he
      exact he.symm
  · rintro ⟨h, rfl⟩
    exact subcodeData_parse_len_err data h

/-- Witness for C3 at the concrete input of 5 zero bytes. -/
theorem subcodeData_parse_length_error_witness :
    SubcodeData.parse (List.replicate 5 0)
      = Except.error (InvalidDataError.InvalidSubcodeDataLength 5) :=
  (subcodeData_parse_length_error (List.replicate 5 0) 5).mpr (by decide)

/-- C10: parsing is lossless — flattening all subcode bytes of all sectors,
in sector order and channel order, reproduces the input. -/
theorem parse_roundtrip (data : List Nat) (h : data.length % 96 = 0) :
    ∃ d, SubcodeData.parse data = Except.ok d ∧
      (d.sectors.map (fun s => (s.codes.map Subcode.data).flatten)).flatten
        = data := by
  have hm := length_eq_mul_of_mod data h
  obtain ⟨-, -, hmem⟩ := chunks_spec 96 (by norm_num) (data.length / 96) data hm
  refine ⟨_, subcodeData_parse_of_mul data _ hm, ?_⟩
  show (((chunks 96 data).map sectorOf).map _).flatten = data
  rw [List.map_map]
  have hone : ∀ c ∈ chunks 96 data,
      ((fun s => (s.codes.map Subcode.data).flatten) ∘ sectorOf) c = id c := by
    intro c hc
    have h96 := hmem c hc
    show ((sectorOf c).codes.map Subcode.data).flatten = c
    have hco : (sectorOf c).codes.map Subcode.data = chunks 12 c := by
      rw [chunks_twelve c h96]
      rfl
    rw [hco, chunks_flatten 12 (by norm_num) c]
  rw [List.map_congr_left hone, List.map_id, chunks_flatten 96 (by norm_num)]

/-- Witness for C10 at the concrete input of 96 zero bytes. -/
theorem parse_roundtrip_witness :
    ∃ d, SubcodeData.parse (List.replicate 96 0) = Except.ok d ∧
      (d.sectors.map (fun s => (s.codes.map Subcode.data).flatten)).flatten
        = List.replicate 96 0 :=
  parse_roundtrip (List.replicate 96 0) (by decide)

/-- C5: for a parsed sector, `contains_basic_data_only` is true exactly when
every byte of the R,S,T,U,V,W channels (bytes 24..96 of the input) is zero;
the P and Q bytes (bytes 0..24) do not occur in the condition at all. -/
theorem basic_data_only_iff (data : List Nat) (s : Sector) (h : data.length = 96)
    (hs : Sector.parse data = Except.ok s) :
    (s.contains_basic_data_only = true ↔ ∀ b ∈ data.drop 24, b = 0) := by
  rw [sector_parse_of_96 data h] at hs
  injection hs with hs
  subst hs
  have hd24 : (data.drop 24).length = 12 * 6 := by
    simp only [List.length_drop]
    omega
  obtain ⟨-, hg6, -⟩ := chunks_spec 12 (by norm_num) 6 (data.drop 24) hd24
  have hc : chunks 12 (data.drop 24)
      = [(data.drop 24).take 12, (data.drop 36).take 12, (data.drop 48).take 12,
         (data.drop 60).take 12, (data.drop 72).take 12, (data.drop 84).take 12] := by
    apply List.ext_getElem?
    intro k
    match k with
    | 0 => rw [hg6 0 (by norm_num)]; simp
    | 1 => rw [hg6 1 (by norm_num), List.drop_drop]; norm_num
    | 2 => rw [hg6 2 (by norm_num), List.drop_drop]; norm_num
    | 3 => rw [hg6 3 (by norm_num), List.drop_drop]; norm_num
    | 4 => rw [hg6 4 (by norm_num), List.drop_drop]; norm_num
    | 5 => rw [hg6 5 (by norm_num), List.drop_drop]; norm_num
    | (k + 6) =>
      rw [List.getElem?_eq_none (by rw [(chunks_spec 12 (by norm_num) 6 (data.drop 24) hd24).1]; omega)]
      symm
      apply List.getElem?_eq_none
      simp
  have hflat : data.drop 24
      = ([(data.drop 24).take 12, (data.drop 36).take 12, (data.drop 48).take 12,
          (data.drop 60).take 12, (data.drop 72).take 12, (data.drop 84).take 12]).flatten := by
    rw [← hc, chunks_flatten 12 (by norm_num)]
  constructor
  · intro hb
    conv_rhs => rw [hflat]
    simp only [Sector.contains_basic_data_only, sectorOf, Subcode.is_empty,
      List.filter, List.all_cons, List.all_nil, Bool.and_eq_true,
      List.all_eq_true, beq_iff_eq] at hb
    simp only [List.flatten, List.mem_append, List.not_mem_nil, or_false]
    intro b hmem
    rcases hmem with hx | hx | hx | hx | hx | hx <;> tauto
  · intro hb
    have hz : ∀ b ∈ ([(data.drop 24).take 12, (data.drop 36).take 12,
        (data.drop 48).take 12, (data.drop 60).take 12, (data.drop 72).take 12,
        (data.drop 84).take 12]).flatten, b = 0 := by
      rw [← hflat]
      exact hb
    simp only [List.flatten, List.mem_append, List.not_mem_nil, or_false] at hz
    simp only [Sector.contains_basic_data_only, sectorOf, Subcode.is_empty,
      List.filter, List.all_cons, List.all_nil, Bool.and_eq_true,
      List.all_eq_true, beq_iff_eq, and_true]
    refine ⟨?_, ?_, ?_, ?_, ?_, ?_⟩ <;> intro b hb1 <;> exact hz b (by tauto)

/-- Witness for C5 at the concrete input of 96 zero bytes. -/
theorem basic_data_only_iff_witness :
    ((sectorOf (List.replicate 96 0)).contains_basic_data_only = true ↔
      ∀ b ∈ (List.replicate 96 (0 : Nat)).drop 24, b = 0) :=
  basic_data_only_iff (List.replicate 96 0) (sectorOf (List.replicate 96 0))
    (by decide) (sector_parse_of_96 (List.replicate 96 0) (by decide))

/-- C6: disc-level `contains_basic_data_only` is the conjunction of the
per-sector checks over all sectors, vacuously true with zero sectors. -/
theorem subcodeData_basic_iff_all (d : SubcodeData) :
    d.contains_basic_data_only = true ↔
      ∀ sector ∈ d.sectors, sector.contains_basic_data_only = true := by
  simp [SubcodeData.contains_basic_data_only, List.all_eq_true]

/-- C9: `Subcode::is_empty` is true exactly when every byte is zero. -/
theorem is_empty_iff (sc : Subcode) :
    sc.is_empty = true ↔ ∀ b ∈ sc.data, b = 0 := by
  simp [Subcode.is_empty, List.all_eq_true]

lemma cdc_enumFrom : ∀ (codes : List Subcode) (i : Nat),
    (∀ k c, codes[k]? = some c → SubcodeType.from_index (i + k) = some c.channel) →
    ((List.enumFrom i codes).filterMap (fun p =>
        if p.2.is_empty then none else some (SubcodeType.from_index p.1).get!))
      = (codes.filter (fun c => ! c.is_empty)).map Subcode.channel := by
  intro codes
  induction codes with
  | nil => intro i _; rfl
  | cons a rest ih =>
    intro i h
    have ha : SubcodeType.from_index i = some a.channel := by
      have := h 0 a (by simp)
      rwa [Nat.add_zero] at this
    have hrest := ih (i + 1) (fun k c hk => by
      have hs := h (k + 1) c (by simpa using hk)
      have he : i + (k + 1) = i + 1 + k := by omega
      rwa [he] at hs)
    show ((i, a) :: List.enumFrom (i + 1) rest).filterMap _ = _
    by_cases hae : a.is_empty
    · simp [List.filterMap_cons, List.filter_cons, hae, hrest]
    · simp [List.filterMap_cons, List.filter_cons, hae, hrest, ha]

/-- C7: for a parsed sector, `contains_data_in_channels` lists, in channel
order P..W, exactly the channels whose subcode is non-empty (P and Q
included when non-empty). -/
theorem contains_data_in_channels_spec (data : List Nat) (s : Sector)
    (h : data.length = 96) (hs : Sector.parse data = Except.ok s) :
    s.codes.map Subcode.channel
        = [SubcodeType.P, SubcodeType.Q, SubcodeType.R, SubcodeType.S,
           SubcodeType.T, SubcodeType.U, SubcodeType.V, SubcodeType.W] ∧
    s.contains_data_in_channels
        = (s.codes.filter (fun c => ! c.is_empty)).map Subcode.channel := by
  rw [sector_parse_of_96 data h] at hs
  injection hs with hs
  subst hs
  refine ⟨rfl, ?_⟩
  unfold Sector.contains_data_in_channels
  show (List.enumFrom 0 (sectorOf data).codes).filterMap _ = _
  apply cdc_enumFrom
  intro k c hk
  match k with
  | 0 => injection hk with hk; subst hk; rfl
  | 1 => injection hk with hk; subst hk; rfl
  | 2 => injection hk with hk; subst hk; rfl
  | 3 => injection hk with hk; subst hk; rfl
  | 4 => injection hk with hk; subst hk; rfl
  | 5 => injection hk with hk; subst hk; rfl
  | 6 => injection hk with hk; subst hk; rfl
  | 7 => injection hk with hk; subst hk; rfl
  | (k + 8) => exact absurd hk (by simp [sectorOf])

/-- Witness for C7 at the concrete input of 96 bytes all equal to 1. -/
theorem contains_data_in_channels_spec_witness :
    (sectorOf (List.replicate 96 1)).codes.map Subcode.channel
        = [SubcodeType.P, SubcodeType.Q, SubcodeType.R, SubcodeType.S,
           SubcodeType.T, SubcodeType.U, SubcodeType.V, SubcodeType.W] ∧
    (sectorOf (List.replicate 96 1)).contains_data_in_channels
        = ((sectorOf (List.replicate 96 1)).codes.filter
            (fun c => ! c.is_empty)).map Subcode.channel :=
  contains_data_in_channels_spec (List.replicate 96 1) (sectorOf (List.replicate 96 1))
    (by decide) (sector_parse_of_96 (List.replicate 96 1) (by decide))

/-- C8: `from_index` maps exactly 0..7 to P..W in order and everything else
to `none`; consequently `Sector::parse` never returns `InvalidSubcodeIndex`. -/
theorem from_index_range_and_unreachable :
    ((List.range 8).map SubcodeType.from_index
        = [SubcodeType.P, SubcodeType.Q, SubcodeType.R, SubcodeType.S, SubcodeType.T,
           SubcodeType.U, SubcodeType.V, SubcodeType.W].map some) ∧
    (∀ i, 8 ≤ i → SubcodeType.from_index i = none) ∧
    (∀ data i, Sector.parse data
        ≠ Except.error (InvalidDataError.InvalidSubcodeIndex i)) := by
  refine ⟨by decide, ?_, ?_⟩
  · intro i hi
    rcases i with _ | _ | _ | _ | _ | _ | _ | _ | k
    · omega
    · omega
    · omega
    · omega
    · omega
    · omega
    · omega
    · omega
    · rfl
  · intro data i
    by_cases h : data.length = 96
    · rw [sector_parse_of_96 data h]
      simp
    · rw [sector_parse_len_err data h]
      simp

/-- Witness for C8: a concrete out-of-range index and a concrete bad-length
parse, neither of which can produce `InvalidSubcodeIndex`. -/
theorem from_index_range_and_unreachable_witness :
    SubcodeType.from_index 12 = none ∧
    Sector.parse (List.replicate 5 0)
      ≠ Except.error (InvalidDataError.InvalidSubcodeIndex 0) :=
  ⟨from_index_range_and_unreachable.2.1 12 (by norm_num),
   from_index_range_and_unreachable.2.2 (List.replicate 5 0) 0⟩

end Ccd
